import Mathlib

/-!
Verification of the medium-api accessor layer: the time-windowed pagination
algorithm of `Publication.get_articles_between` (src/medium_api/_publication.py),
the lazy info caches of `Publication`/`Newsletter`, and the `TopFeeds` accessor
(src/medium_api/_topfeeds.py).

Timestamps (`datetime` values in the source) are embedded as `Int`: the source
only compares them (`<`, `<=`) and round-trips them through `isoformat` /
`strptime`, so any linearly ordered carrier is faithful.  Article handles carry
only their id (`articles_from_ids` builds `Article` shells from ids without any
network traffic); the `published_at` field hydrated by the bulk-fetch
collaborator is modelled by an ambient assignment `pubAt : String → Int`.
Network activity is made observable: every embedded operation returns, besides
its value, the list of `get_resp` requests it issued (cursors, or paths).
-/

namespace MediumApi

/-- One page response of `/publication/<id>/articles?from=...`:
`publication_articles` (ordered id list) and the reported `to` bound
(`resp['to']`, parsed by `strptime` in the source). -/
structure Page where
  ids : List String
  toTs : Int
deriving DecidableEq

/-- The remote articles endpoint: maps a request cursor (the `from` query
parameter) to the page response the server sends back. -/
abbrev Server := Int → Page

/-- Outcome of one run of the body of `Publication.get_articles_between`
(lines 254-280): the returned list, the publication's `__articles` cache after
the call, the cursors of the `get_resp` page requests issued (in order), the
accumulated pre-filter list of the paging branch, and whether the invalid
interval error message was printed. -/
structure GabOutcome where
  result : List String
  cacheAfter : Option (List String)
  log : List Int
  merged : List String
  errorLogged : Bool
deriving DecidableEq

/-- The `while next_to > _to` scroll loop (lines 263-266), fuel-indexed: each
iteration requests the page at the cursor `nextTo`, appends the page's reversed
id list (`resp['publication_articles'][::-1]`), and replaces `nextTo` by the
page's reported `to`.  `none` means the fuel ran out before the loop exited. -/
def scrollLoop (server : Server) (toT : Int) :
    Nat → List String → Int → List Int → Option (List String × List Int)
  | 0, acc, nextTo, log =>
      if toT < nextTo then none else some (acc, log)
  | fuel + 1, acc, nextTo, log =>
      if toT < nextTo then
        let resp := server nextTo
        scrollLoop server toT fuel (acc ++ resp.ids.reverse) resp.toTs (log ++ [nextTo])
      else some (acc, log)

/-- Body of `Publication.get_articles_between(_from, _to)` (lines 254-280),
without the `lru_cache` layer (modelled separately in `callGAB`).  `now` models
`datetime.now()`, used when `_from` is `None`; `cache` is the incoming
`__articles` state.  With `_to` set and `_to < _from` it pages through the
history, bulk-fetches, filters to the closed window and stores the filtered
list; with `_to` set and `_to >= _from` it prints an error and returns `[]`
without touching `__articles`; with `_to` unset it performs exactly one page
request and stores the raw (unreversed, unfiltered) id list. -/
def gabBody (server : Server) (pubAt : String → Int) (now : Int)
    (fromArg toArg : Option Int) (cache : Option (List String)) (fuel : Nat) :
    Option GabOutcome :=
  let fromT := fromArg.getD now
  match toArg with
  | none =>
      let resp := server fromT
      some { result := resp.ids, cacheAfter := some resp.ids, log := [fromT],
             merged := resp.ids, errorLogged := false }
  | some toT =>
      if toT < fromT then
        let resp := server fromT
        match scrollLoop server toT fuel resp.ids.reverse resp.toTs [fromT] with
        | none => none
        | some (acc, lg) =>
            let filtered := acc.filter (fun s => decide (toT ≤ pubAt s) && decide (pubAt s ≤ fromT))
            some { result := filtered, cacheAfter := some filtered, log := lg,
                   merged := acc, errorLogged := false }
      else
        some { result := [], cacheAfter := cache, log := [], merged := [],
               errorLogged := true }

/-- Memoization key of the `lru_cache` layer: the raw `(_from, _to)` argument
pair, before the `datetime.now()` defaulting (which happens inside the body). -/
abbrev GabKey := Option Int × Option Int

/-- Mutable state of one `Publication` instance relevant to the claims: the
`lru_cache(maxsize=16)` memo table of `get_articles_between` (most recently
used first) and the `__articles` cache. -/
structure PubState where
  lru : List (GabKey × List String)
  articlesCache : Option (List String)
deriving DecidableEq

/-- Lookup in the memo table. -/
def lruLookup (table : List (GabKey × List String)) (k : GabKey) :
    Option (GabKey × List String) :=
  table.find? (fun e => decide (e.1 = k))

/-- A call of `publication.get_articles_between(_from, _to)` through the
`@lru_cache(maxsize=16)` decorator (line 226): on a hit the cached list is
returned and the body does not run (no requests, `__articles` untouched); on a
miss the body runs and its result is memoized, evicting beyond 16 entries. -/
def callGAB (server : Server) (pubAt : String → Int) (now : Int)
    (fromArg toArg : Option Int) (st : PubState) (fuel : Nat) :
    Option (List String × PubState × List Int) :=
  match lruLookup st.lru (fromArg, toArg) with
  | some e =>
      some (e.2, { st with
        lru := ((fromArg, toArg), e.2) ::
          st.lru.eraseP (fun e2 => decide (e2.1 = (fromArg, toArg))) }, [])
  | none =>
      match gabBody server pubAt now fromArg toArg st.articlesCache fuel with
      | none => none
      | some o =>
          some (o.result,
                { lru := (((fromArg, toArg), o.result) :: st.lru).take 16,
                  articlesCache := o.cacheAfter }, o.log)

/-- The `Publication.articles` property (lines 282-297): returns the cached
`__articles` if present, otherwise calls `get_articles_between()` with no
arguments (through the memo layer) and stores its result. -/
def articlesProp (server : Server) (pubAt : String → Int) (now : Int)
    (st : PubState) (fuel : Nat) :
    Option (List String × PubState × List Int) :=
  match st.articlesCache with
  | some l => some (l, st, [])
  | none =>
      match callGAB server pubAt now none none st fuel with
      | none => none
      | some (r, st1, lg) => some (r, { st1 with articlesCache := some r }, lg)

/-! ### Concrete stub server (the scenario of spec section 8)

Dates are encoded as day offsets: 2023-12-30 ↦ -1, 2024-01-01 ↦ 1,
2024-01-05 ↦ 5, 2024-01-10 ↦ 10.  The stub answers the request at
`from = 2024-01-10` with ids `[a, b, c]` and `to = 2024-01-05`, and any
other request (in particular the one at `from = 2024-01-05`) with `[d, e]`
and `to = 2023-12-30`. -/

def wServer : Server := fun c =>
  if c = 10 then { ids := ["a", "b", "c"], toTs := 5 }
  else { ids := ["d", "e"], toTs := -1 }

/-- Publication times hydrated by the bulk fetch for the stub's articles: all
five lie inside the requested window `[1, 10]`. -/
def wPubAt : String → Int := fun s =>
  if s = "a" then 9 else if s = "b" then 8 else if s = "c" then 7
  else if s = "d" then 4 else 3

/-- The outcome of the stub run `get_articles_between(_from = 10, _to = 1)`. -/
def wOutcome : GabOutcome :=
  { result := ["c", "b", "a", "e", "d"],
    cacheAfter := some ["c", "b", "a", "e", "d"],
    log := [10, 5],
    merged := ["c", "b", "a", "e", "d"],
    errorLogged := false }

/-! ### Lazy info accessors and the TopFeeds accessor

`Publication.info` and `Newsletter.info` share the same shape: fetch the
resource at the path derived from the id once, cache the mapping, and answer
every later read from the cache.  Responses are an abstract type `α` (the
source copies the parsed mapping with `dict(resp)`, preserving its value). -/

/-- One read of a lazy `info` property: a cache hit returns the stored
response with no request; a miss performs one `get_resp(path)` call and
stores its response. -/
def infoRead {α : Type} (getResp : String → α) (path : String)
    (st : Option α) : α × Option α × List String :=
  match st with
  | some r => (r, some r, [])
  | none => (getResp path, some (getResp path), [path])

/-- `n` successive reads of a stateful accessor, collecting the values
returned and the requests issued. -/
def iterReads {σ β : Type} (step : σ → β × σ × List String) :
    Nat → σ → List β × σ × List String
  | 0, st => ([], st, [])
  | n + 1, st =>
      let x := step st
      let y := iterReads step n x.2.1
      (x.1 :: y.1, y.2.1, x.2.2 ++ y.2.2)

/-- Resource path of `Publication.info` (line 149). -/
def pubInfoPath (pubId : String) : String := "/publication/" ++ pubId

/-- Resource path of `Newsletter.info` (line 43). -/
def newsletterInfoPath (pubId : String) : String :=
  "/publication/" ++ pubId ++ "/newsletter"

/-- Resource path of `TopFeeds.ids` (line 39). -/
def topfeedsPath (tag mode : String) : String :=
  "/topfeeds/" ++ tag ++ "/" ++ mode

/-- Mutable state of a `TopFeeds` instance: the `__ids` and `__articles`
caches. -/
structure TopFeedsState where
  idsCache : Option (List String)
  articlesCache : Option (List String)
deriving DecidableEq

/-- The `TopFeeds.ids` property (lines 29-42): fetch `resp['topfeeds']` once,
cache, never re-request. -/
def tfIds (g : String → List String) (tag mode : String)
    (st : TopFeedsState) : List String × TopFeedsState × List String :=
  match st.idsCache with
  | some l => (l, st, [])
  | none =>
      (g (topfeedsPath tag mode),
       { st with idsCache := some (g (topfeedsPath tag mode)) },
       [topfeedsPath tag mode])

/-- The `TopFeeds.articles` property (lines 44-63): resolve the cached ids to
`Article` handles once (resolution is pure — handles carry only their id) and
cache the list. -/
def tfArticles (g : String → List String) (tag mode : String)
    (st : TopFeedsState) : List String × TopFeedsState × List String :=
  match st.articlesCache with
  | some l => (l, st, [])
  | none =>
      let x := tfIds g tag mode st
      (x.1, { x.2.1 with articlesCache := some x.1 }, x.2.2)

/-- `TopFeeds.fetch_articles` (lines 65-83): a thin pass-through handing the
cached `articles` list to the injected bulk-fetch collaborator exactly once
per call; the third component records the collaborator invocations. -/
def tfFetchArticles (g : String → List String) (tag mode : String)
    (st : TopFeedsState) : TopFeedsState × List String × List (List String) :=
  let x := tfArticles g tag mode st
  (x.2.1, x.2.2, [x.1])

/-! ### The cursor chain of the paging loop

`cursorSeq server start k` is the `k`-th cursor of the scroll: the first
request goes out at `start` (= `_from`), and each later cursor is the `to`
reported by the page at the previous one.  `cursorList` collects the first `J`
cursors, and `pagesFlat` the corresponding reversed page id lists in request
order — exactly what the loop accumulates. -/

def cursorSeq (server : Server) (start : Int) : Nat → Int
  | 0 => start
  | k + 1 => cursorSeq server ((server start).toTs) k

/-- The first `J` cursors of the scroll starting at `start`. -/
def cursorList (server : Server) (start : Int) : Nat → List Int
  | 0 => []
  | j + 1 => start :: cursorList server ((server start).toTs) j

/-- Concatenation of the first `J` pages of the scroll, each reversed. -/
def pagesFlat (server : Server) (start : Int) : Nat → List String
  | 0 => []
  | j + 1 =>
      (server start).ids.reverse ++ pagesFlat server ((server start).toTs) j

/-- Stub server whose reported `to` always recedes by five days: used to
witness the termination theorem. -/
def decServer : Server := fun c => { ids := ["x"], toTs := c - 5 }

/-! ### Spec-modelled pagination server

The remote service itself is not part of the repository; only its interface
is.  The spec describes it as serving, for a cursor `X`, the most recent page
of "articles older than timestamp X" from the publication's article history,
most-recent-first, reporting as `to` "the oldest item actually included in
that batch".  The following models that contract over a fixed article
history. -/

/-- An article of the publication's history: its identifier and its
publication timestamp. -/
structure DbArticle where
  id : String
  ts : Int
deriving DecidableEq

/-- Modelled from the spec: the page served for cursor `c` — up to `pageSize`
articles of the history `db` (held newest-first) strictly older than `c`, in
history (most-recent-first) order. -/
def dbPage (db : List DbArticle) (pageSize : Nat) (c : Int) : List DbArticle :=
  (db.filter (fun a => decide (a.ts < c))).take pageSize

/-- Modelled from the spec: the pagination endpoint over the history `db` —
the page's identifier list plus the reported `to`, the publication time of the
oldest item actually included (when the page is empty nothing newer than
`c - 1` was covered, so `c - 1` is reported). -/
def dbServer (db : List DbArticle) (pageSize : Nat) : Server := fun c =>
  { ids := (dbPage db pageSize c).map (fun a => a.id),
    toTs := (((dbPage db pageSize c).getLast?).map (fun a => a.ts)).getD
      (c - 1) }

/-- Concrete article history for the C4 witness. -/
def wDb : List DbArticle :=
  [{ id := "A", ts := 10 }, { id := "B", ts := 9 },
   { id := "C", ts := 8 }, { id := "D", ts := 7 }]

/-! ### Shared helper lemmas -/

/-- The invalid-interval branch (lines 272-274): with both bounds set and
`_to >= _from`, the body prints the error, returns `[]`, issues no request and
leaves the `__articles` cache untouched, for every fuel value. -/
theorem gabBody_invalid (server : Server) (pubAt : String → Int) (now : Int)
    (fromT toT : Int) (cache : Option (List String)) (fuel : Nat)
    (h : fromT ≤ toT) :
    gabBody server pubAt now (some fromT) (some toT) cache fuel =
      some { result := [], cacheAfter := cache, log := [], merged := [],
             errorLogged := true } := by
  unfold gabBody
  simp only [Option.getD_some]
  rw [if_neg (by omega)]

/-- The valid-interval branch: if the run returned, its result is the
accumulated list filtered to the closed window and it is stored as the new
`__articles` cache. -/
theorem gabBody_valid_some (server : Server) (pubAt : String → Int) (now : Int)
    (fromT toT : Int) (cache : Option (List String)) (fuel : Nat)
    (o : GabOutcome) (h : toT < fromT)
    (ho : gabBody server pubAt now (some fromT) (some toT) cache fuel = some o) :
    o.result = o.merged.filter
        (fun s => decide (toT ≤ pubAt s) && decide (pubAt s ≤ fromT)) ∧
      o.cacheAfter = some o.result := by
  unfold gabBody at ho
  simp only [Option.getD_some] at ho
  rw [if_pos h] at ho
  rcases hsl : scrollLoop server toT fuel (server fromT).ids.reverse
      (server fromT).toTs [fromT] with _ | ⟨acc, lg⟩ <;>
    rw [hsl] at ho
  · exact absurd ho (by simp)
  · simp only [Option.some.injEq] at ho
    subst ho
    exact ⟨rfl, rfl⟩

/-- Unfolding the cursor chain one step at the far end: the next cursor is the
`to` reported by the page at the current one. -/
theorem cursorSeq_succ_eq (server : Server) (start : Int) :
    ∀ k, cursorSeq server start (k + 1) =
      (server (cursorSeq server start k)).toTs := by
  intro k
  induction k generalizing start with
  | zero => rfl
  | succ k ih => exact ih ((server start).toTs)

/-- `cursorList` is the range-indexed view of `cursorSeq`. -/
theorem cursorList_eq_map (server : Server) :
    ∀ (J : Nat) (start : Int),
      cursorList server start J =
        (List.range J).map (cursorSeq server start) := by
  intro J
  induction J with
  | zero => intro start; rfl
  | succ J ih =>
    intro start
    rw [List.range_succ_eq_map]
    simp only [List.map_cons, List.map_map]
    show start :: cursorList server ((server start).toTs) J = _
    rw [ih ((server start).toTs)]
    rfl

/-- Full characterization of the scroll loop under a strictly receding server:
if every reported `to` is strictly below the cursor that requested it, then
with fuel at least `nextTo - _to` the loop terminates, having requested exactly
the cursors of the chain up to (excluding) the first one that falls at or below
`_to`, and accumulated the corresponding reversed pages in request order. -/
theorem scrollLoop_eq (server : Server) (toT : Int)
    (h2 : ∀ c, (server c).toTs < c) :
    ∀ (fuel : Nat) (nextTo : Int) (acc : List String) (log : List Int),
      (nextTo - toT).toNat ≤ fuel →
      ∃ J : Nat,
        scrollLoop server toT fuel acc nextTo log =
          some (acc ++ pagesFlat server nextTo J,
                log ++ cursorList server nextTo J) ∧
        (∀ k < J, toT < cursorSeq server nextTo k) ∧
        cursorSeq server nextTo J ≤ toT := by
  intro fuel
  induction fuel with
  | zero =>
    intro nextTo acc log hle
    have hnot : ¬ toT < nextTo := by omega
    refine ⟨0, ?_, by omega, by simpa [cursorSeq] using not_lt.mp hnot⟩
    simp [scrollLoop, hnot, pagesFlat, cursorList]
  | succ fuel ih =>
    intro nextTo acc log hle
    by_cases hc : toT < nextTo
    · have hlt := h2 nextTo
      have hle2 : ((server nextTo).toTs - toT).toNat ≤ fuel := by omega
      obtain ⟨J, heq, hall, hend⟩ := ih (server nextTo).toTs
        (acc ++ (server nextTo).ids.reverse) (log ++ [nextTo]) hle2
      refine ⟨J + 1, ?_, ?_, hend⟩
      · show scrollLoop server toT (fuel + 1) acc nextTo log = _
        rw [scrollLoop, if_pos hc, heq]
        simp [pagesFlat, cursorList, List.append_assoc]
      · intro k hk
        cases k with
        | zero => simpa [cursorSeq] using hc
        | succ k => exact hall k (by omega)
    · refine ⟨0, ?_, by omega, by simpa [cursorSeq] using not_lt.mp hc⟩
      simp [scrollLoop, hc, pagesFlat, cursorList]

/-- Head hit in the memo table. -/
theorem lruLookup_cons_self (k : GabKey) (v : List String)
    (rest : List (GabKey × List String)) :
    lruLookup ((k, v) :: rest) k = some (k, v) := by
  simp [lruLookup, List.find?_cons_of_pos]

/-! ### Claim theorems -/

/-- C1: for every call `get_articles_between(_from, _to)` with both bounds set
and `_to < _from`, every article in the returned list has `published_at` in the
closed interval `[_to, _from]`, and the returned (filtered) list is stored as
the publication's `__articles` cache. -/
theorem pub_gab_window_filter (server : Server) (pubAt : String → Int)
    (now fromT toT : Int) (cache : Option (List String)) (fuel : Nat)
    (o : GabOutcome) (h : toT < fromT)
    (ho : gabBody server pubAt now (some fromT) (some toT) cache fuel = some o) :
    (∀ s ∈ o.result, toT ≤ pubAt s ∧ pubAt s ≤ fromT) ∧
      o.cacheAfter = some o.result := by
  obtain ⟨hr, hc⟩ := gabBody_valid_some server pubAt now fromT toT cache fuel o h ho
  refine ⟨fun s hs => ?_, hc⟩
  rw [hr] at hs
  simp only [List.mem_filter, Bool.and_eq_true, decide_eq_true_eq] at hs
  exact hs.2

/-- Witness for C1 on the stub scenario run. -/
theorem pub_gab_window_filter_wit :
    ((1 : Int) ≤ wPubAt ("c") ∧ wPubAt ("c") ≤ 10) ∧
      wOutcome.cacheAfter = some wOutcome.result :=
  ⟨(pub_gab_window_filter wServer wPubAt 0 10 1 none 9 wOutcome (by decide)
      (by decide)).1 ("c") (by decide),
   (pub_gab_window_filter wServer wPubAt 0 10 1 none 9 wOutcome (by decide)
      (by decide)).2⟩

/-- C2 counterexample: on the stub of the spec's scenario (first page at
`from = 2024-01-10` answers ids `[a, b, c]` with `to = 2024-01-05`, requested
`_to = 2024-01-01`, second page at `from = 2024-01-05` answers `[d, e]` with
`to = 2023-12-30`, all five published inside the window), the code returns the
pages each reversed, `[c, b, a, e, d]` — not the claimed `[a, b, c, d, e]`,
nor any subsequence of it. -/
theorem pub_gab_scenario_counterexample :
    (gabBody wServer wPubAt 0 (some 10) (some 1) none 9).map GabOutcome.result
        = some ["c", "b", "a", "e", "d"] ∧
      (["c", "b", "a", "e", "d"] : List String) ≠ ["a", "b", "c", "d", "e"] ∧
      ¬ (["c", "b", "a", "e", "d"] : List String).Sublist
          ["a", "b", "c", "d", "e"] := by decide

/-- C2 amended: on the stub, the loop stops after the second request (requests
are issued exactly at cursors 2024-01-10 and 2024-01-05) and the final
filtered, bulk-fetched result is the concatenation of the pages in request
order with each page individually reversed to oldest-first:
`[c, b, a, e, d]` (minus any entities outside the bounds — none here). -/
theorem pub_gab_scenario_amended :
    (gabBody wServer wPubAt 0 (some 10) (some 1) none 9).map
        (fun o => (o.result, o.log))
      = some (["c", "b", "a", "e", "d"], [10, 5]) := by decide

/-- C5: with both bounds set and `_to >= _from`, the call logs the error and
returns the empty list; it returns normally (no exception) and issues no
`get_resp` request — for every fuel, in particular fuel 0, so no page request
can have been consumed. -/
theorem pub_gab_invalid_interval_soft (server : Server) (pubAt : String → Int)
    (now fromT toT : Int) (cache : Option (List String)) (fuel : Nat)
    (h : toT ≥ fromT) :
    gabBody server pubAt now (some fromT) (some toT) cache fuel =
      some { result := [], cacheAfter := cache, log := [], merged := [],
             errorLogged := true } :=
  gabBody_invalid server pubAt now fromT toT cache fuel h

/-- Witness for C5. -/
theorem pub_gab_invalid_interval_soft_wit :
    gabBody wServer wPubAt 0 (some 1) (some 5) none 0 =
      some { result := [], cacheAfter := none, log := [], merged := [],
             errorLogged := true } :=
  pub_gab_invalid_interval_soft wServer wPubAt 0 1 5 none 0 (by decide)

/-- C6: if a call of `get_articles_between` through the `lru_cache` layer
returned (hit or miss), a second call with the identical `(_from, _to)`
argument pair returns the memoized result and issues no network request --
even with zero fuel, since the body does not run on a hit. -/
theorem pub_gab_memoized_second_call (server : Server) (pubAt : String → Int)
    (now : Int) (fa ta : Option Int) (st : PubState) (fuel fuel2 : Nat)
    (r : List String) (st1 : PubState) (lg : List Int)
    (h : callGAB server pubAt now fa ta st fuel = some (r, st1, lg)) :
    (callGAB server pubAt now fa ta st1 fuel2).map (fun x => (x.1, x.2.2))
      = some (r, []) := by
  unfold callGAB at h ⊢
  rcases hl : lruLookup st.lru (fa, ta) with _ | e <;> rw [hl] at h
  · rcases hb : gabBody server pubAt now fa ta st.articlesCache fuel
        with _ | o <;> rw [hb] at h
    · exact absurd h (by simp)
    · simp only [Option.some.injEq, Prod.mk.injEq] at h
      obtain ⟨hr, hst, hlg⟩ := h
      rw [← hst]
      rw [show (16 : Nat) = 15 + 1 from rfl, List.take_succ_cons,
        lruLookup_cons_self]
      simp [hr]
  · simp only [Option.some.injEq, Prod.mk.injEq] at h
    obtain ⟨hr, hst, hlg⟩ := h
    rw [← hst]
    rw [lruLookup_cons_self]
    simp [hr]

/-- Witness for C6: the stub run, repeated with zero fuel. -/
theorem pub_gab_memoized_second_call_wit :
    (callGAB wServer wPubAt 0 (some 10) (some 1)
        { lru := [((some 10, some 1), ["c", "b", "a", "e", "d"])],
          articlesCache := some ["c", "b", "a", "e", "d"] } 0).map
        (fun x => (x.1, x.2.2))
      = some (["c", "b", "a", "e", "d"], []) :=
  pub_gab_memoized_second_call wServer wPubAt 0 (some 10) (some 1)
    { lru := [], articlesCache := none } 9 0 ["c", "b", "a", "e", "d"]
    { lru := [((some 10, some 1), ["c", "b", "a", "e", "d"])],
      articlesCache := some ["c", "b", "a", "e", "d"] } [10, 5] (by decide)

/-- C7: with `_to` unset, exactly one page request is performed, at `_from`
(defaulting to `datetime.now()` when `_from` is unset); the page's id list is
returned unreversed and unfiltered and stored as the `__articles` cache.  The
same holds for the no-argument call made by the `articles` property on a fresh
publication state. -/
theorem pub_gab_no_to_single_page (server : Server) (pubAt : String → Int)
    (now : Int) (fromArg : Option Int) (cache : Option (List String))
    (fuel : Nat) :
    gabBody server pubAt now fromArg none cache fuel =
        some { result := (server (fromArg.getD now)).ids,
               cacheAfter := some (server (fromArg.getD now)).ids,
               log := [fromArg.getD now],
               merged := (server (fromArg.getD now)).ids,
               errorLogged := false } ∧
      articlesProp server pubAt now { lru := [], articlesCache := none } fuel =
        some ((server now).ids,
              { lru := [(((none : Option Int), (none : Option Int)),
                         (server now).ids)],
                articlesCache := some ((server now).ids) },
              [now]) :=
  ⟨rfl, rfl⟩

/-- C10: an invalid-interval call (`_to >= _from`, both set) leaves the
`__articles` cache unchanged — the error branch returns `[]` before any
assignment — so the `articles` property still returns a previously cached
result afterwards, with no further request. -/
theorem pub_gab_invalid_keeps_cache (server : Server) (pubAt : String → Int)
    (now fromT toT : Int) (prev : List String)
    (lr : List (GabKey × List String)) (fuel fuel2 : Nat)
    (h : toT ≥ fromT) :
    gabBody server pubAt now (some fromT) (some toT) (some prev) fuel =
        some { result := [], cacheAfter := some prev, log := [], merged := [],
               errorLogged := true } ∧
      articlesProp server pubAt now { lru := lr, articlesCache := some prev }
          fuel2 =
        some (prev, { lru := lr, articlesCache := some prev }, []) :=
  ⟨gabBody_invalid server pubAt now fromT toT (some prev) fuel h, rfl⟩

/-- Witness for C10. -/
theorem pub_gab_invalid_keeps_cache_wit :
    gabBody wServer wPubAt 0 (some 1) (some 5) (some ["z"]) 3 =
        some { result := [], cacheAfter := some ["z"], log := [], merged := [],
               errorLogged := true } ∧
      articlesProp wServer wPubAt 0 { lru := [], articlesCache := some ["z"] }
          3 =
        some (["z"], { lru := [], articlesCache := some ["z"] }, []) :=
  pub_gab_invalid_keeps_cache wServer wPubAt 0 1 5 ["z"] [] 3 3 (by decide)

/-- C3: for every valid interval `_to < _from`, if each page's reported `to`
is strictly below the cursor that requested it, the paging loop terminates
(here: with fuel `_from - _to` the run succeeds).  There is an `M ≥ 1` such
that the requests issued are exactly the cursors `cursorSeq 0 .. cursorSeq
(M-1)` of the chain; the cursor is initialized from the first response and
updated from each later one (`cursorSeq (k+1) = reported to of page k`); every
page before the last reported `to > _to` (so the loop continued), and the last
request is the first page whose reported `to ≤ _to` (the loop exits exactly
when `next_to ≤ _to`). -/
theorem pub_gab_paging_terminates (server : Server) (pubAt : String → Int)
    (now fromT toT : Int) (cache : Option (List String))
    (h1 : toT < fromT) (h2 : ∀ c, (server c).toTs < c) :
    ∃ (o : GabOutcome) (M : Nat),
      gabBody server pubAt now (some fromT) (some toT) cache
          (fromT - toT).toNat = some o ∧
      1 ≤ M ∧
      o.log = (List.range M).map (cursorSeq server fromT) ∧
      (∀ k, 1 ≤ k → k < M → toT < cursorSeq server fromT k) ∧
      cursorSeq server fromT M ≤ toT ∧
      (∀ k, cursorSeq server fromT (k + 1) =
        (server (cursorSeq server fromT k)).toTs) := by
  have hfuel : ((server fromT).toTs - toT).toNat ≤ (fromT - toT).toNat := by
    have := h2 fromT
    omega
  obtain ⟨J, heq, hall, hend⟩ := scrollLoop_eq server toT h2 (fromT - toT).toNat
    (server fromT).toTs (server fromT).ids.reverse [fromT] hfuel
  have hrun : gabBody server pubAt now (some fromT) (some toT) cache
      (fromT - toT).toNat =
      some { result := ((server fromT).ids.reverse ++
                pagesFlat server ((server fromT).toTs) J).filter
                (fun s => decide (toT ≤ pubAt s) && decide (pubAt s ≤ fromT)),
             cacheAfter := some (((server fromT).ids.reverse ++
                pagesFlat server ((server fromT).toTs) J).filter
                (fun s => decide (toT ≤ pubAt s) && decide (pubAt s ≤ fromT))),
             log := [fromT] ++ cursorList server ((server fromT).toTs) J,
             merged := (server fromT).ids.reverse ++
                pagesFlat server ((server fromT).toTs) J,
             errorLogged := false } := by
    unfold gabBody
    simp only [Option.getD_some]
    rw [if_pos h1, heq]
  refine ⟨_, J + 1, hrun, by omega, ?_, ?_, hend,
    cursorSeq_succ_eq server fromT⟩
  · show [fromT] ++ cursorList server ((server fromT).toTs) J =
      (List.range (J + 1)).map (cursorSeq server fromT)
    rw [← cursorList_eq_map]
    rfl
  · intro k hk1 hkM
    cases k with
    | zero => omega
    | succ k => exact hall k (by omega)

/-- Witness for C3: the strictly receding stub terminates within the stated
fuel. -/
theorem pub_gab_paging_terminates_wit :
    (gabBody decServer wPubAt 0 (some 10) (some 1) none
        (((10 : Int) - 1).toNat)).isSome = true := by
  obtain ⟨o, M, ho, -⟩ := pub_gab_paging_terminates decServer wPubAt 0 10 1
    none (by decide) (fun c => by simp only [decServer]; omega)
  rw [ho]
  rfl

/-! ### Lemmas about the spec-modelled server -/

/-- Every page entry belongs to the history and is strictly older than the
cursor. -/
theorem mem_dbPage (db : List DbArticle) (n : Nat) (c : Int) (a : DbArticle)
    (ha : a ∈ dbPage db n c) : a ∈ db ∧ a.ts < c := by
  have h1 : a ∈ db.filter (fun a => decide (a.ts < c)) :=
    (List.take_sublist _ _).subset ha
  have h2 := List.mem_filter.mp h1
  exact ⟨h2.1, by simpa using h2.2⟩

/-- The last element of a list is a member. -/
theorem getLast?_mem' {α : Type} : ∀ (l : List α) (a : α),
    l.getLast? = some a → a ∈ l := by
  intro l
  induction l with
  | nil => intro a h; simp at h
  | cons x t ih =>
    intro a h
    cases t with
    | nil => simp [List.getLast?] at h; simp [h]
    | cons y u =>
      rw [List.getLast?_cons_cons] at h
      exact List.mem_cons_of_mem x (ih a h)

/-- The spec-modelled server's reported `to` is always strictly below the
cursor, so its pagination strictly recedes. -/
theorem dbServer_lt (db : List DbArticle) (n : Nat) :
    ∀ c, ((dbServer db n) c).toTs < c := by
  intro c
  show ((((dbPage db n c).getLast?).map (fun a => a.ts)).getD (c - 1)) < c
  rcases hl : (dbPage db n c).getLast? with _ | a
  · simp
  · have := (mem_dbPage db n c a (getLast?_mem' _ a hl)).2
    simpa using this

/-- Pages inherit the newest-first ordering of the history. -/
theorem dbPage_sorted (db : List DbArticle) (n : Nat) (c : Int)
    (hsorted : db.Pairwise (fun a b => b.ts ≤ a.ts)) :
    (dbPage db n c).Pairwise (fun a b => b.ts ≤ a.ts) :=
  List.Pairwise.sublist ((List.take_sublist _ _).trans (List.filter_sublist _))
    hsorted

/-- In a newest-first list, the last element is the oldest. -/
theorem sorted_getLast_le {l : List DbArticle}
    (hs : l.Pairwise (fun a b => b.ts ≤ a.ts)) :
    ∀ x ∈ l, ∀ a, l.getLast? = some a → a.ts ≤ x.ts := by
  induction l with
  | nil => intro x hx; simp at hx
  | cons y t ih =>
    intro x hx a hl
    cases t with
    | nil =>
      simp [List.getLast?] at hl
      simp at hx
      simp [hx, hl]
    | cons z u =>
      rw [List.getLast?_cons_cons] at hl
      rcases List.mem_cons.mp hx with hx | hx
      · have hmem := getLast?_mem' (z :: u) a hl
        have := (List.pairwise_cons.mp hs).1 a hmem
        subst hx
        exact this
      · exact ih (List.pairwise_cons.mp hs).2 x hx a hl

/-- Each id served at cursor `c` comes from a history entry published inside
the page window `[reported to, c)`. -/
theorem dbServer_window (db : List DbArticle) (n : Nat) (c : Int) (s : String)
    (hsorted : db.Pairwise (fun a b => b.ts ≤ a.ts))
    (hs : s ∈ ((dbServer db n) c).ids) :
    ∃ a ∈ db, a.id = s ∧ ((dbServer db n) c).toTs ≤ a.ts ∧ a.ts < c := by
  obtain ⟨a, ha, haid⟩ := List.mem_map.mp hs
  obtain ⟨hadb, halt⟩ := mem_dbPage db n c a ha
  rcases hl : (dbPage db n c).getLast? with _ | b
  · rw [List.getLast?_eq_none_iff] at hl
    rw [hl] at ha
    simp at ha
  · have hle := sorted_getLast_le (dbPage_sorted db n c hsorted) a ha b hl
    refine ⟨a, hadb, haid, ?_, halt⟩
    show ((((dbPage db n c).getLast?).map (fun x => x.ts)).getD (c - 1)) ≤ a.ts
    rw [hl]
    simpa using hle

/-- A single page contains no duplicate ids when the history does not. -/
theorem dbServer_ids_nodup (db : List DbArticle) (n : Nat) (c : Int)
    (hids : (db.map (fun a => a.id)).Nodup) :
    ((dbServer db n) c).ids.Nodup := by
  have hsub : ((dbPage db n c).map (fun a => a.id)).Sublist
      (db.map (fun a => a.id)) :=
    List.Sublist.map _ ((List.take_sublist _ _).trans (List.filter_sublist _))
  exact hids.sublist hsub

/-- In a duplicate-free history, ids determine entries. -/
theorem db_id_inj (db : List DbArticle)
    (hids : (db.map (fun a => a.id)).Nodup)
    (a b : DbArticle) (ha : a ∈ db) (hb : b ∈ db) (h : a.id = b.id) :
    a = b :=
  List.inj_on_of_nodup_map hids ha hb h

/-- The concatenation of the scroll's pages carries no duplicate ids: every
accumulated id stems from an entry at or above the current cursor, while each
new page serves only entries strictly below it. -/
theorem pagesFlat_nodup (db : List DbArticle) (n : Nat)
    (hids : (db.map (fun a => a.id)).Nodup)
    (hsorted : db.Pairwise (fun a b => b.ts ≤ a.ts)) :
    ∀ (K : Nat) (start : Int),
      (pagesFlat (dbServer db n) start K).Nodup ∧
      (∀ s ∈ pagesFlat (dbServer db n) start K,
        ∃ a ∈ db, a.id = s ∧ a.ts < start) := by
  intro K
  induction K with
  | zero => intro start; simp [pagesFlat]
  | succ K ih =>
    intro start
    obtain ⟨ihn, ihm⟩ := ih ((dbServer db n) start).toTs
    constructor
    · show (((dbServer db n) start).ids.reverse ++
        pagesFlat (dbServer db n) ((dbServer db n) start).toTs K).Nodup
      rw [List.nodup_append]
      refine ⟨by simpa using dbServer_ids_nodup db n start hids, ihn, ?_⟩
      intro s hs hs2
      rw [List.mem_reverse] at hs
      obtain ⟨a, hadb, haid, halow, hahigh⟩ :=
        dbServer_window db n start s hsorted hs
      obtain ⟨b, hbdb, hbid, hbts⟩ := ihm s hs2
      have hab : a = b := db_id_inj db hids a b hadb hbdb (haid.trans hbid.symm)
      rw [hab] at halow
      omega
    · intro s hs
      show ∃ a ∈ db, a.id = s ∧ a.ts < start
      rcases List.mem_append.mp hs with hs | hs
      · rw [List.mem_reverse] at hs
        obtain ⟨a, hadb, haid, _, hahigh⟩ :=
          dbServer_window db n start s hsorted hs
        exact ⟨a, hadb, haid, hahigh⟩
      · obtain ⟨b, hbdb, hbid, hbts⟩ := ihm s hs
        have := dbServer_lt db n start
        exact ⟨b, hbdb, hbid, by omega⟩

/-- Shared characterization of a full valid-interval run in terms of the
cursor chain: with fuel `_from - _to`, the body returns the filtered
concatenation of the first `J + 1` reversed pages, having requested exactly
those cursors. -/
theorem gabBody_scroll_run (server : Server) (pubAt : String → Int)
    (now fromT toT : Int) (cache : Option (List String))
    (h1 : toT < fromT) (h2 : ∀ c, (server c).toTs < c) :
    ∃ J : Nat,
      gabBody server pubAt now (some fromT) (some toT) cache
          (fromT - toT).toNat =
        some { result := (pagesFlat server fromT (J + 1)).filter
                 (fun s => decide (toT ≤ pubAt s) && decide (pubAt s ≤ fromT)),
               cacheAfter := some ((pagesFlat server fromT (J + 1)).filter
                 (fun s => decide (toT ≤ pubAt s) && decide (pubAt s ≤ fromT))),
               log := cursorList server fromT (J + 1),
               merged := pagesFlat server fromT (J + 1),
               errorLogged := false } ∧
      (∀ k, 1 ≤ k → k < J + 1 → toT < cursorSeq server fromT k) ∧
      cursorSeq server fromT (J + 1) ≤ toT := by
  have hfuel : ((server fromT).toTs - toT).toNat ≤ (fromT - toT).toNat := by
    have := h2 fromT
    omega
  obtain ⟨J, heq, hall, hend⟩ := scrollLoop_eq server toT h2 (fromT - toT).toNat
    (server fromT).toTs (server fromT).ids.reverse [fromT] hfuel
  refine ⟨J, ?_, ?_, hend⟩
  · unfold gabBody
    simp only [Option.getD_some]
    rw [if_pos h1, heq]
    rfl
  · intro k hk1 hkM
    cases k with
    | zero => omega
    | succ k => exact hall k (by omega)

/-- C4: for every valid interval `_to < _from`, against the spec-modelled
server (pages served from a fixed duplicate-free newest-first article history,
so that the reported `to` strictly decreases and page windows are contiguous
and non-overlapping), the merged article sequence accumulated by
`get_articles_between` contains no duplicate article identifiers across pages
— and neither does the filtered result. -/
theorem pub_gab_no_duplicate_ids (db : List DbArticle) (n : Nat)
    (pubAt : String → Int) (now fromT toT : Int)
    (cache : Option (List String))
    (hids : (db.map (fun a => a.id)).Nodup)
    (hsorted : db.Pairwise (fun a b => b.ts ≤ a.ts))
    (h1 : toT < fromT) :
    ∃ o : GabOutcome,
      gabBody (dbServer db n) pubAt now (some fromT) (some toT) cache
          (fromT - toT).toNat = some o ∧
      o.merged.Nodup ∧ o.result.Nodup := by
  obtain ⟨J, hrun, -, -⟩ := gabBody_scroll_run (dbServer db n) pubAt now fromT
    toT cache h1 (dbServer_lt db n)
  refine ⟨_, hrun, ?_, ?_⟩
  · exact (pagesFlat_nodup db n hids hsorted (J + 1) fromT).1
  · exact ((pagesFlat_nodup db n hids hsorted (J + 1) fromT).1).filter _

/-- Witness for C4: a four-article history scrolled with page size two. -/
theorem pub_gab_no_duplicate_ids_wit :
    (gabBody (dbServer wDb 2) wPubAt 0 (some 11) (some 7) none
        (((11 : Int) - 7).toNat)).isSome = true := by
  obtain ⟨o, ho, -, -⟩ := pub_gab_no_duplicate_ids wDb 2 wPubAt 0 11 7 none
    (by decide) (by decide) (by decide)
  rw [ho]
  rfl

/-- A read whose state is a fixpoint of the accessor repeats forever without
effects. -/
theorem iterReads_fix {σ β : Type} (step : σ → β × σ × List String)
    (st : σ) (v : β) (hstep : step st = (v, st, [])) :
    ∀ n, iterReads step n st = (List.replicate n v, st, []) := by
  intro n
  induction n with
  | zero => rfl
  | succ n ih => simp [iterReads, hstep, ih, List.replicate_succ]

/-- For an accessor whose first read moves to a fixpoint state, `n + 1` reads
return the same value every time and issue only the first read's requests. -/
theorem iterReads_fresh {σ β : Type} (step : σ → β × σ × List String)
    (st0 : σ) (v : β) (st1 : σ) (l : List String)
    (h0 : step st0 = (v, st1, l)) (h1 : step st1 = (v, st1, []))
    (n : Nat) :
    iterReads step (n + 1) st0 = (List.replicate (n + 1) v, st1, l) := by
  simp [iterReads, h0, iterReads_fix step st1 v h1 n, List.replicate_succ]

/-- C8: for both the `Publication.info` and the `Newsletter.info` accessor,
any positive number of reads performs exactly one network call in total, to
the path derived from the entity's identifier: the first access populates the
raw-response cache and every read returns that cached response. -/
theorem info_single_fetch {α : Type} (getResp : String → α) (pubId : String)
    (n : Nat) (h : 1 ≤ n) :
    iterReads (infoRead getResp (pubInfoPath pubId)) n none =
      (List.replicate n (getResp (pubInfoPath pubId)),
       some (getResp (pubInfoPath pubId)), [pubInfoPath pubId]) ∧
    iterReads (infoRead getResp (newsletterInfoPath pubId)) n none =
      (List.replicate n (getResp (newsletterInfoPath pubId)),
       some (getResp (newsletterInfoPath pubId)),
       [newsletterInfoPath pubId]) := by
  obtain ⟨m, rfl⟩ : ∃ m, n = m + 1 := ⟨n - 1, by omega⟩
  exact ⟨iterReads_fresh _ _ _ _ _ rfl rfl m,
    iterReads_fresh _ _ _ _ _ rfl rfl m⟩

/-- Witness for C8: two reads of each accessor, one request each. -/
theorem info_single_fetch_wit :
    iterReads (infoRead (fun _ => (0 : Int)) (pubInfoPath ("p1"))) 2 none =
      ([0, 0], some 0, [pubInfoPath ("p1")]) ∧
    iterReads (infoRead (fun _ => (0 : Int)) (newsletterInfoPath ("p1"))) 2
        none =
      ([0, 0], some 0, [newsletterInfoPath ("p1")]) :=
  info_single_fetch (fun _ => (0 : Int)) ("p1") 2 (by decide)

/-- C9: for any `TopFeeds` instance, the identifier list is fetched by exactly
one request across any positive number of `ids` reads; `articles` reads return
the once-resolved cached list every time (still one request in total, issued
via `ids`); and each `fetch_articles` call delegates exactly once to the
injected bulk-fetch collaborator, over the cached `articles` list. -/
theorem topfeeds_state_machine (g : String → List String) (tag mode : String)
    (n : Nat) (h : 1 ≤ n) :
    iterReads (tfIds g tag mode) n
        { idsCache := none, articlesCache := none } =
      (List.replicate n (g (topfeedsPath tag mode)),
       { idsCache := some (g (topfeedsPath tag mode)), articlesCache := none },
       [topfeedsPath tag mode]) ∧
    iterReads (tfArticles g tag mode) n
        { idsCache := none, articlesCache := none } =
      (List.replicate n (g (topfeedsPath tag mode)),
       { idsCache := some (g (topfeedsPath tag mode)),
         articlesCache := some (g (topfeedsPath tag mode)) },
       [topfeedsPath tag mode]) ∧
    tfFetchArticles g tag mode
        { idsCache := some (g (topfeedsPath tag mode)),
          articlesCache := some (g (topfeedsPath tag mode)) } =
      ({ idsCache := some (g (topfeedsPath tag mode)),
         articlesCache := some (g (topfeedsPath tag mode)) },
       [], [g (topfeedsPath tag mode)]) ∧
    tfFetchArticles g tag mode
        { idsCache := none, articlesCache := none } =
      ({ idsCache := some (g (topfeedsPath tag mode)),
         articlesCache := some (g (topfeedsPath tag mode)) },
       [topfeedsPath tag mode], [g (topfeedsPath tag mode)]) := by
  obtain ⟨m, rfl⟩ : ∃ m, n = m + 1 := ⟨n - 1, by omega⟩
  exact ⟨iterReads_fresh _ _ _ _ _ rfl rfl m,
    iterReads_fresh _ _ _ _ _ rfl rfl m, rfl, rfl⟩

/-- Witness for C9: two `ids` reads on a fresh instance issue one request. -/
theorem topfeeds_state_machine_wit :
    iterReads (tfIds (fun _ => ["x", "y"]) ("t") ("new")) 2
        { idsCache := none, articlesCache := none } =
      ([["x", "y"], ["x", "y"]],
       { idsCache := some ["x", "y"], articlesCache := none },
       [topfeedsPath ("t") ("new")]) :=
  (topfeeds_state_machine (fun _ => ["x", "y"]) ("t") ("new") 2 (by decide)).1

end MediumApi
